import Mathlib

set_option maxRecDepth 100000

/-!
Verification of the `vectors` Go package (files `vector2.go` and `vector3.go`,
the revisions that carry `Scale`/`Dot`/`Lerp` on `Vector2` and
`Bounce`/`ClampMagnitude` on `Vector3`).

The development uses three embeddings of the code:

* An exact-real embedding (`Vector2`, `Vector3` over `ℝ`): every `float64`
  is idealised as a real number, `math.Sqrt` as `Real.sqrt`, `math.Atan2 y x`
  as `Complex.arg ⟨x, y⟩` (the same function with the same conventions, range
  `(-π, π]`), and `math.Mod` as the exact truncated remainder.  Go locals are
  inlined; an in-place method on a pointer receiver becomes a function
  returning the updated vector value.

* A rounding model of IEEE-754 binary64 (`Dy`, `Vector2FP`, `Vector3FP`):
  every finite double is a dyadic rational `m * 2^e`; each arithmetic
  operation of the source is the exact operation followed by `fl`, which
  rounds to the 53-bit grid of the result's binade (round to nearest, ties to
  even), with gradual underflow below `2^-1022` (grid clamped at `2^-1074`).
  `math.Sqrt` is the correctly rounded square root, as Go guarantees.
  Overflow to infinity and signed zeros are not modelled: no computation in
  this file goes near overflow, and no result's sign-of-zero matters here.
  Integer log2 and square root are computed by fuel-bounded structural
  recursion (`log2f`, `clog2`, `isqrt`) so that the kernel can evaluate them;
  the fuel bounds vastly exceed the bit-lengths that occur.

* An extended value domain (`GoFloat`, `Vector2Ext`, `Vector3Ext`) adding
  signed infinities and NaN, used for the unguarded-division semantics of
  `Div`: finite / 0 is a signed infinity, 0 / 0 is NaN, exactly as IEEE-754
  (with the zero divisor read as +0, since signed zeros are not modelled).
-/

/- ## Fuel-bounded integer log2 / ceil-log2 / sqrt -/

/-- Floor of log2 of a natural number (0 for inputs below 2), by fuel-bounded
halving.  `log2f fuel n = Nat.log2 n` whenever `fuel` exceeds the bit length
of `n`. -/
def log2f : ℕ → ℕ → ℕ
  | 0, _ => 0
  | fuel + 1, n => if n ≤ 1 then 0 else log2f fuel (n / 2) + 1

/-- Ceiling of log2 of a natural number, by fuel-bounded halving upward. -/
def clog2 : ℕ → ℕ → ℕ
  | 0, _ => 0
  | fuel + 1, n => if n ≤ 1 then 0 else clog2 fuel ((n + 1) / 2) + 1

/-- Newton iteration for the integer square root, monotonically decreasing
from an over-estimate; stops at the fixed point, which is `Nat.sqrt n`. -/
def isqrtAux : ℕ → ℕ → ℕ → ℕ
  | 0, _, g => g
  | fuel + 1, n, g =>
    let next := (g + n / g) / 2
    if next < g then isqrtAux fuel n next else g

/-- Integer square root `⌊√n⌋`: Newton iteration started strictly above
`√n` at a power of two. -/
def isqrt (n : ℕ) : ℕ :=
  if n ≤ 1 then n else isqrtAux 300 n (2 ^ (clog2 4000 n / 2 + 1))

/- ## Dyadic rationals and the binary64 rounding model -/

/-- Dyadic rational `m * 2^e`: the value domain of finite IEEE-754 binary64
numbers.  The representation is not unique; `Dy.val` gives the value. -/
structure Dy where
  m : ℤ
  e : ℤ
  deriving DecidableEq

/-- The rational value of a dyadic. -/
def Dy.val (a : Dy) : ℚ := (a.m : ℚ) * 2 ^ a.e

/-- Exact negation. -/
def Dy.neg (a : Dy) : Dy := ⟨-a.m, a.e⟩

/-- Exact addition (aligning the two exponents). -/
def Dy.addExact (a b : Dy) : Dy :=
  if a.e ≤ b.e then ⟨a.m + b.m * 2 ^ (b.e - a.e).toNat, a.e⟩
  else ⟨a.m * 2 ^ (a.e - b.e).toNat + b.m, b.e⟩

/-- Exact multiplication. -/
def Dy.mulExact (a b : Dy) : Dy := ⟨a.m * b.m, a.e + b.e⟩

/-- Value-level comparison `a ≤ b` of two dyadics. -/
def Dy.ble (a b : Dy) : Bool :=
  if a.e ≤ b.e then decide (a.m ≤ b.m * 2 ^ (b.e - a.e).toNat)
  else decide (a.m * 2 ^ (a.e - b.e).toNat ≤ b.m)

/-- Round `m / 2^s` to the nearest integer, ties to even (IEEE-754 default
rounding).  Uses floor division, so it is correct for negative `m` too. -/
def rndShift (m : ℤ) (s : ℕ) : ℤ :=
  let q := Int.fdiv m (2 ^ s)
  let r := m - q * 2 ^ s
  if 2 * r < 2 ^ s then q
  else if (2 : ℤ) ^ s < 2 * r then q + 1
  else if q % 2 = 0 then q else q + 1

/-- Round `n / d` (with `d > 0`) to the nearest integer, ties to even. -/
def rndFrac (n d : ℤ) : ℤ :=
  let q := Int.fdiv n d
  let r := n - q * d
  if 2 * r < d then q
  else if d < 2 * r then q + 1
  else if q % 2 = 0 then q else q + 1

/-- Round a dyadic to IEEE-754 binary64: round to nearest (ties to even) on
the grid `2^(⌊log2 |x|⌋ - 52)`, clamped at the subnormal grid `2^-1074`.
Overflow is not modelled (no computation here reaches `2^1024`). -/
def fl (a : Dy) : Dy :=
  if a.m = 0 then ⟨0, 0⟩
  else
    let E : ℤ := max ((log2f 4000 a.m.natAbs : ℤ) + a.e - 52) (-1074)
    if E ≤ a.e then ⟨a.m * 2 ^ (a.e - E).toNat, E⟩
    else
      let q := rndShift a.m (E - a.e).toNat
      if q = 0 then ⟨0, 0⟩ else ⟨q, E⟩

/-- binary64 addition: exact sum, then rounding. -/
def fpAdd (a b : Dy) : Dy := fl (Dy.addExact a b)

/-- binary64 subtraction: exact difference, then rounding. -/
def fpSub (a b : Dy) : Dy := fl (Dy.addExact a (Dy.neg b))

/-- binary64 multiplication: exact product, then rounding. -/
def fpMul (a b : Dy) : Dy := fl (Dy.mulExact a b)

/-- Floor of log2 of the ratio `p / q` of two positive naturals. -/
def ilogRat (p q : ℕ) : ℤ :=
  if q ≤ p then (log2f 4000 (p / q) : ℤ)
  else -((clog2 4000 ((q + p - 1) / p) : ℕ) : ℤ)

/-- binary64 division (finite, nonzero divisor): the correctly rounded
quotient.  A zero operand gives 0 here; division by zero is handled in the
extended domain `GoFloat` below, which is where the source's unguarded
divisions are studied. -/
def fpDiv (a b : Dy) : Dy :=
  if a.m = 0 ∨ b.m = 0 then ⟨0, 0⟩
  else
    let E : ℤ := max (ilogRat a.m.natAbs b.m.natAbs + a.e - b.e - 52) (-1074)
    let g : ℤ := a.e - b.e - E
    let sgn : ℤ := if b.m < 0 then -1 else 1
    let n : ℤ := sgn * a.m * (if 0 ≤ g then 2 ^ g.toNat else 1)
    let d : ℤ := |b.m| * (if 0 ≤ g then 1 else 2 ^ (-g).toNat)
    let q := rndFrac n d
    if q = 0 then ⟨0, 0⟩ else ⟨q, E⟩

/-- Round `√(a / b)` (with `b ≥ 1`) to the nearest integer, ties to even:
compares `a / b` against `(f + 1/2)^2` by cross-multiplication. -/
def sqrtRndFrac (a b : ℕ) : ℕ :=
  let f := isqrt (a * b) / b
  if 4 * a < (2 * f + 1) ^ 2 * b then f
  else if (2 * f + 1) ^ 2 * b < 4 * a then f + 1
  else if f % 2 = 0 then f else f + 1

/-- binary64 square root: correctly rounded (as `math.Sqrt` guarantees).
Non-positive input gives 0 (only `√0` occurs on that side here). -/
def fpSqrt (a : Dy) : Dy :=
  if a.m ≤ 0 then ⟨0, 0⟩
  else
    let E : ℤ := Int.fdiv ((log2f 4000 a.m.natAbs : ℤ) + a.e) 2 - 52
    let s : ℤ := a.e - 2 * E
    let n : ℕ := a.m.toNat * (if 0 ≤ s then 2 ^ s.toNat else 1)
    let d : ℕ := if 0 ≤ s then 1 else 2 ^ (-s).toNat
    ⟨(sqrtRndFrac n d : ℤ), E⟩

/-- Truncated (toward zero) integer quotient of two dyadic values. -/
def truncDivFP (a b : Dy) : ℤ :=
  if 0 ≤ a.e - b.e then Int.tdiv (a.m * 2 ^ (a.e - b.e).toNat) b.m
  else Int.tdiv a.m (b.m * 2 ^ (b.e - a.e).toNat)

/-- Model of Go `math.Mod`: the exact truncated remainder
`x - Trunc(x/y) * y`.  Go computes this remainder exactly (it is always
representable), so no rounding step follows. -/
def mathModFP (a b : Dy) : Dy :=
  Dy.addExact a (Dy.neg (Dy.mulExact b ⟨truncDivFP a b, 0⟩))

/-- Rounding model of the range normalisation in `Vector2.AngleDegrees`
(vector2.go): the code after `angle` has been computed, namely
`if angle < 0 { angle += 360 }; return angle`.  The single addition
`angle + 360` rounds. -/
def angleDegNormV2 (angle : Dy) : Dy :=
  if angle.m < 0 then fpAdd angle ⟨360, 0⟩ else angle

/-- Rounding model of the range normalisation in `Vector3.AngleDegrees`
(vector3.go): `return math.Mod(angle+360, 360)`. -/
def angleDegNormV3 (angle : Dy) : Dy :=
  mathModFP (fpAdd angle ⟨360, 0⟩) ⟨360, 0⟩

/- ## Vectors over the rounding model -/

/-- `Vector2` with binary64 components (rounding model). -/
structure Vector2FP where
  X : Dy
  Y : Dy
  deriving DecidableEq

/-- `Vector3` with binary64 components (rounding model). -/
structure Vector3FP where
  X : Dy
  Y : Dy
  Z : Dy
  deriving DecidableEq

/-- `Vector2.Add` under rounding: `v.X += vec.X; v.Y += vec.Y`. -/
def Vector2FP.Add (v vec : Vector2FP) : Vector2FP :=
  ⟨fpAdd v.X vec.X, fpAdd v.Y vec.Y⟩

/-- `Vector2.Sub` under rounding: `v.X -= vec.X; v.Y -= vec.Y`. -/
def Vector2FP.Sub (v vec : Vector2FP) : Vector2FP :=
  ⟨fpSub v.X vec.X, fpSub v.Y vec.Y⟩

/-- `Vector2.Lerp` under rounding: `v.X += (vec.X - v.X) * t` and likewise
for `Y`. -/
def Vector2FP.Lerp (v vec : Vector2FP) (t : Dy) : Vector2FP :=
  ⟨fpAdd v.X (fpMul (fpSub vec.X v.X) t), fpAdd v.Y (fpMul (fpSub vec.Y v.Y) t)⟩

/-- `Vector2.MagnitudeSquared` under rounding: `(X*X) + (Y*Y)`. -/
def Vector2FP.MagnitudeSquared (v : Vector2FP) : Dy :=
  fpAdd (fpMul v.X v.X) (fpMul v.Y v.Y)

/-- `Vector2.Magnitude` under rounding: `math.Sqrt((X*X) + (Y*Y))`. -/
def Vector2FP.Magnitude (v : Vector2FP) : Dy :=
  fpSqrt (Vector2FP.MagnitudeSquared v)

/-- `Vector2.IsZero`: `X == 0 && Y == 0` (a value-level test: a dyadic is
zero exactly when its mantissa is). -/
def Vector2FP.IsZero (v : Vector2FP) : Prop :=
  v.X.m = 0 ∧ v.Y.m = 0

instance (v : Vector2FP) : Decidable (Vector2FP.IsZero v) :=
  inferInstanceAs (Decidable (_ ∧ _))

/-- `Vector2.Normalize` under rounding (vector2.go): computes
`magnitudeSquared`, and only if it is nonzero divides both components by
`math.Sqrt(magnitudeSquared)`. -/
def Vector2FP.Normalize (v : Vector2FP) : Vector2FP :=
  if (Vector2FP.MagnitudeSquared v).m ≠ 0 then
    ⟨fpDiv v.X (fpSqrt (Vector2FP.MagnitudeSquared v)),
     fpDiv v.Y (fpSqrt (Vector2FP.MagnitudeSquared v))⟩
  else v

/-- `Vector2.ClampMagnitude` under rounding (vector2.go): compares the
squared magnitude against `maxValue*maxValue`, and otherwise multiplies each
component by `maxValue / math.Sqrt(magnitudeSquared)`. -/
def Vector2FP.ClampMagnitude (v : Vector2FP) (maxValue : Dy) : Vector2FP :=
  if (Vector2FP.MagnitudeSquared v).m = 0 ∨
      Dy.ble (Vector2FP.MagnitudeSquared v) (fpMul maxValue maxValue) = true then v
  else
    ⟨fpMul v.X (fpDiv maxValue (fpSqrt (Vector2FP.MagnitudeSquared v))),
     fpMul v.Y (fpDiv maxValue (fpSqrt (Vector2FP.MagnitudeSquared v)))⟩

/-- `Vector3.Normalize` under rounding (vector3.go): computes
`magnitude := math.Sqrt(X*X + Y*Y + Z*Z)` and only if it is nonzero divides
the three components by it. -/
def Vector3FP.Normalize (v : Vector3FP) : Vector3FP :=
  if (fpSqrt (fpAdd (fpAdd (fpMul v.X v.X) (fpMul v.Y v.Y)) (fpMul v.Z v.Z))).m ≠ 0 then
    ⟨fpDiv v.X (fpSqrt (fpAdd (fpAdd (fpMul v.X v.X) (fpMul v.Y v.Y)) (fpMul v.Z v.Z))),
     fpDiv v.Y (fpSqrt (fpAdd (fpAdd (fpMul v.X v.X) (fpMul v.Y v.Y)) (fpMul v.Z v.Z))),
     fpDiv v.Z (fpSqrt (fpAdd (fpAdd (fpMul v.X v.X) (fpMul v.Y v.Y)) (fpMul v.Z v.Z)))⟩
  else v

/- ## Extended domain with infinities, for unguarded division -/

/-- A binary64 value extended with the special values: finite dyadic, the
two infinities, or NaN (all NaN payloads identified). -/
inductive GoFloat where
  | fin (d : Dy)
  | inf (neg : Bool)
  | nan
  deriving DecidableEq

/-- IEEE-754 division on the extended domain, as executed by Go's `/`:
`finite(nonzero) / 0 = ±Inf`, `0 / 0 = NaN`, `±Inf / finite = ±Inf`,
`finite / ±Inf = 0`, `±Inf / ±Inf = NaN`, NaN propagates, and
finite / finite(nonzero) is the correctly rounded quotient.  The zero
divisor is read as +0 (signed zeros are not modelled). -/
def goDiv : GoFloat → GoFloat → GoFloat
  | GoFloat.nan, _ => GoFloat.nan
  | _, GoFloat.nan => GoFloat.nan
  | GoFloat.inf _, GoFloat.inf _ => GoFloat.nan
  | GoFloat.inf s, GoFloat.fin b => GoFloat.inf (xor s (decide (b.m < 0)))
  | GoFloat.fin _, GoFloat.inf _ => GoFloat.fin ⟨0, 0⟩
  | GoFloat.fin a, GoFloat.fin b =>
    if b.m = 0 then (if a.m = 0 then GoFloat.nan else GoFloat.inf (decide (a.m < 0)))
    else GoFloat.fin (fpDiv a b)

/-- `Vector2` over the extended domain. -/
structure Vector2Ext where
  X : GoFloat
  Y : GoFloat
  deriving DecidableEq

/-- `Vector2.Div` (vector2.go): `v.X /= vec.X; v.Y /= vec.Y`, with no zero
check of any kind. -/
def Vector2Ext.Div (v vec : Vector2Ext) : Vector2Ext :=
  ⟨goDiv v.X vec.X, goDiv v.Y vec.Y⟩

/-- `Vector3` over the extended domain. -/
structure Vector3Ext where
  X : GoFloat
  Y : GoFloat
  Z : GoFloat
  deriving DecidableEq

/-- `Vector3.Div` (vector3.go): component-wise unguarded division. -/
def Vector3Ext.Div (v vec : Vector3Ext) : Vector3Ext :=
  ⟨goDiv v.X vec.X, goDiv v.Y vec.Y, goDiv v.Z vec.Z⟩

/- ## Exact-real embedding -/

namespace Vectors

/-- `Vector2` (vector2.go): a 2D vector with X and Y coordinates,
components idealised as exact reals. -/
@[ext]
structure Vector2 where
  X : ℝ
  Y : ℝ

/-- `Vector3` (vector3.go): a 3D vector with X, Y and Z coordinates. -/
@[ext]
structure Vector3 where
  X : ℝ
  Y : ℝ
  Z : ℝ

/-- Model of Go `math.Atan2 y x`: the argument of the complex number
`x + i*y`, range `(-π, π]`, with `mathAtan2 0 0 = 0`, matching `Atan2`
(signed zeros aside, which `ℝ` does not have). -/
noncomputable def mathAtan2 (y x : ℝ) : ℝ := Complex.arg ⟨x, y⟩

/-- `Vector2.Add`: adds the values of another vector to this one. -/
noncomputable def Vector2.Add (v vec : Vector2) : Vector2 :=
  ⟨v.X + vec.X, v.Y + vec.Y⟩

/-- `Vector2.Sub`: subtracts the values of another vector from this one. -/
noncomputable def Vector2.Sub (v vec : Vector2) : Vector2 :=
  ⟨v.X - vec.X, v.Y - vec.Y⟩

/-- `Vector2.Div`: divides this vector by another vector (unguarded). -/
noncomputable def Vector2.Div (v vec : Vector2) : Vector2 :=
  ⟨v.X / vec.X, v.Y / vec.Y⟩

/-- `Vector2.Scale`: multiplies this vector by a scale. -/
noncomputable def Vector2.Scale (v : Vector2) (scale : ℝ) : Vector2 :=
  ⟨v.X * scale, v.Y * scale⟩

/-- `Vector2.MagnitudeSquared`: `(X * X) + (Y * Y)`. -/
noncomputable def Vector2.MagnitudeSquared (v : Vector2) : ℝ :=
  v.X * v.X + v.Y * v.Y

/-- `Vector2.Magnitude`: `math.Sqrt((X * X) + (Y * Y))`. -/
noncomputable def Vector2.Magnitude (v : Vector2) : ℝ :=
  Real.sqrt (v.X * v.X + v.Y * v.Y)

/-- `Vector2.Normalize` (vector2.go): computes `magnitudeSquared` first and
divides by `math.Sqrt(magnitudeSquared)` only when it is nonzero. -/
noncomputable def Vector2.Normalize (v : Vector2) : Vector2 :=
  if v.X * v.X + v.Y * v.Y ≠ 0 then
    ⟨v.X / Real.sqrt (v.X * v.X + v.Y * v.Y),
     v.Y / Real.sqrt (v.X * v.X + v.Y * v.Y)⟩
  else v

/-- `Vector2.AngleRadians`: `math.Atan2(Y, X)`. -/
noncomputable def Vector2.AngleRadians (v : Vector2) : ℝ := mathAtan2 v.Y v.X

/-- `Vector2.IsZero`: `X == 0 && Y == 0`. -/
def Vector2.IsZero (v : Vector2) : Prop := v.X = 0 ∧ v.Y = 0

/-- `Vector2.Dot`: the dot product. -/
noncomputable def Vector2.Dot (v vec : Vector2) : ℝ :=
  v.X * vec.X + v.Y * vec.Y

/-- `Vector2.Lerp`: `v.X += (vec.X - v.X) * t` and likewise for `Y`;
`t` is not clamped. -/
noncomputable def Vector2.Lerp (v vec : Vector2) (t : ℝ) : Vector2 :=
  ⟨v.X + (vec.X - v.X) * t, v.Y + (vec.Y - v.Y) * t⟩

/-- `Vector2.ClampMagnitude` (vector2.go): compares squared magnitude with
`maxValue * maxValue`; when above, multiplies both components by
`maxValue / math.Sqrt(magnitudeSquared)`. -/
noncomputable def Vector2.ClampMagnitude (v : Vector2) (maxValue : ℝ) : Vector2 :=
  if v.MagnitudeSquared = 0 ∨ v.MagnitudeSquared ≤ maxValue * maxValue then v
  else
    ⟨v.X * (maxValue / Real.sqrt v.MagnitudeSquared),
     v.Y * (maxValue / Real.sqrt v.MagnitudeSquared)⟩

/-- `Vector2.ToVector3`: converts to a 3D vector with a Z value of 0
(value receiver: the original is not mutated). -/
noncomputable def Vector2.ToVector3 (v : Vector2) : Vector3 := ⟨v.X, v.Y, 0⟩

/-- `Vector3.Add`. -/
noncomputable def Vector3.Add (v vec : Vector3) : Vector3 :=
  ⟨v.X + vec.X, v.Y + vec.Y, v.Z + vec.Z⟩

/-- `Vector3.Sub`. -/
noncomputable def Vector3.Sub (v vec : Vector3) : Vector3 :=
  ⟨v.X - vec.X, v.Y - vec.Y, v.Z - vec.Z⟩

/-- `Vector3.Div` (unguarded). -/
noncomputable def Vector3.Div (v vec : Vector3) : Vector3 :=
  ⟨v.X / vec.X, v.Y / vec.Y, v.Z / vec.Z⟩

/-- `Vector3.MagnitudeSquared`: `(X*X) + (Y*Y) + (Z*Z)`. -/
noncomputable def Vector3.MagnitudeSquared (v : Vector3) : ℝ :=
  v.X * v.X + v.Y * v.Y + v.Z * v.Z

/-- `Vector3.Magnitude`. -/
noncomputable def Vector3.Magnitude (v : Vector3) : ℝ :=
  Real.sqrt (v.X * v.X + v.Y * v.Y + v.Z * v.Z)

/-- `Vector3.Normalize` (vector3.go): computes
`magnitude := math.Sqrt(X*X + Y*Y + Z*Z)` and divides the components by it
only when it is nonzero. -/
noncomputable def Vector3.Normalize (v : Vector3) : Vector3 :=
  if Real.sqrt (v.X * v.X + v.Y * v.Y + v.Z * v.Z) ≠ 0 then
    ⟨v.X / Real.sqrt (v.X * v.X + v.Y * v.Y + v.Z * v.Z),
     v.Y / Real.sqrt (v.X * v.X + v.Y * v.Y + v.Z * v.Z),
     v.Z / Real.sqrt (v.X * v.X + v.Y * v.Y + v.Z * v.Z)⟩
  else v

/-- `Vector3.AngleRadians`: `math.Atan2(Y, X)`, ignoring Z. -/
noncomputable def Vector3.AngleRadians (v : Vector3) : ℝ := mathAtan2 v.Y v.X

/-- `Vector3.IsZero`. -/
def Vector3.IsZero (v : Vector3) : Prop := v.X = 0 ∧ v.Y = 0 ∧ v.Z = 0

/-- `Vector3.ClampMagnitude` (vector3.go): compares the magnitude itself
with `maxValue`; when above, multiplies the components by
`maxValue / magnitude`. -/
noncomputable def Vector3.ClampMagnitude (v : Vector3) (maxValue : ℝ) : Vector3 :=
  if v.Magnitude = 0 ∨ v.Magnitude ≤ maxValue then v
  else
    ⟨v.X * (maxValue / v.Magnitude),
     v.Y * (maxValue / v.Magnitude),
     v.Z * (maxValue / v.Magnitude)⟩

/-- `Vector3.ToVector2`: drops the Z component (value receiver: the
original is not mutated). -/
noncomputable def Vector3.ToVector2 (v : Vector3) : Vector2 := ⟨v.X, v.Y⟩

end Vectors

/- ## Helper lemmas -/

namespace Vectors

lemma sumsq_nonneg (x y : ℝ) : 0 ≤ x * x + y * y :=
  add_nonneg (mul_self_nonneg x) (mul_self_nonneg y)

lemma sumsq3_nonneg (x y z : ℝ) : 0 ≤ x * x + y * y + z * z :=
  add_nonneg (add_nonneg (mul_self_nonneg x) (mul_self_nonneg y)) (mul_self_nonneg z)

lemma sumsq_pos {x y : ℝ} (h : x ≠ 0 ∨ y ≠ 0) : 0 < x * x + y * y := by
  rcases h with h | h
  · nlinarith [mul_self_nonneg y, mul_self_pos.mpr h]
  · nlinarith [mul_self_nonneg x, mul_self_pos.mpr h]

lemma sumsq3_pos {x y z : ℝ} (h : x ≠ 0 ∨ y ≠ 0 ∨ z ≠ 0) : 0 < x * x + y * y + z * z := by
  rcases h with h | h | h
  · nlinarith [mul_self_nonneg y, mul_self_nonneg z, mul_self_pos.mpr h]
  · nlinarith [mul_self_nonneg x, mul_self_nonneg z, mul_self_pos.mpr h]
  · nlinarith [mul_self_nonneg x, mul_self_nonneg y, mul_self_pos.mpr h]

lemma sqrt_le_of_sq {s m : ℝ} (hm : 0 ≤ m) (h : s ≤ m * m) : Real.sqrt s ≤ m := by
  calc Real.sqrt s ≤ Real.sqrt (m * m) := Real.sqrt_le_sqrt h
  _ = m := Real.sqrt_mul_self hm

lemma sq_le_of_sqrt {s m : ℝ} (hs : 0 ≤ s) (h : Real.sqrt s ≤ m) : s ≤ m * m := by
  have h2 := mul_self_le_mul_self (Real.sqrt_nonneg s) h
  rwa [Real.mul_self_sqrt hs] at h2

lemma sqrt_scaled (x y k : ℝ) (hk : 0 ≤ k) :
    Real.sqrt ((x * k) * (x * k) + (y * k) * (y * k)) = k * Real.sqrt (x * x + y * y) := by
  have h : (x * k) * (x * k) + (y * k) * (y * k) = (k * k) * (x * x + y * y) := by ring
  rw [h, Real.sqrt_mul (mul_self_nonneg k), Real.sqrt_mul_self hk]

lemma sqrt3_scaled (x y z k : ℝ) (hk : 0 ≤ k) :
    Real.sqrt ((x * k) * (x * k) + (y * k) * (y * k) + (z * k) * (z * k)) =
      k * Real.sqrt (x * x + y * y + z * z) := by
  have h : (x * k) * (x * k) + (y * k) * (y * k) + (z * k) * (z * k) =
      (k * k) * (x * x + y * y + z * z) := by ring
  rw [h, Real.sqrt_mul (mul_self_nonneg k), Real.sqrt_mul_self hk]

lemma mathAtan2_div (y x m : ℝ) (hm : 0 < m) : mathAtan2 (y / m) (x / m) = mathAtan2 y x := by
  have h : (⟨x / m, y / m⟩ : ℂ) = (↑(m⁻¹ : ℝ)) * ⟨x, y⟩ := by
    apply Complex.ext
    · rw [Complex.mul_re, Complex.ofReal_re, Complex.ofReal_im]
      show x / m = m⁻¹ * x - 0 * y
      rw [div_eq_inv_mul]
      ring
    · rw [Complex.mul_im, Complex.ofReal_re, Complex.ofReal_im]
      show y / m = m⁻¹ * y + 0 * x
      rw [div_eq_inv_mul]
      ring
  unfold mathAtan2
  rw [h, Complex.arg_real_mul _ (inv_pos.mpr hm)]

end Vectors

/- ## Claim theorems -/

/-- C1: the claim says both `AngleDegrees` implementations normalise via true
modulo `((angle + 360) mod 360)` into `[0, 360)`, for every input including
tiny negative angles.  `Vector3.AngleDegrees` does; but `Vector2.AngleDegrees`
(vector2.go) uses the single conditional add `if angle < 0 { angle += 360 }`,
and for a tiny negative angle in degrees (here `-2^-60`) the binary64 sum
`angle + 360` rounds to exactly 360, so the function returns 360, outside
`[0, 360)` — while the true-modulo normalisation of `Vector3` returns 0. -/
theorem angleDegrees_condAdd_escapes_range :
    (angleDegNormV2 ⟨-1, -60⟩).val = 360 ∧
    ¬ (angleDegNormV2 ⟨-1, -60⟩).val < 360 ∧
    (angleDegNormV3 ⟨-1, -60⟩).val = 0 := by
  have h2 : angleDegNormV2 ⟨-1, -60⟩ = ⟨6333186975989760, -44⟩ := by decide
  have h3 : angleDegNormV3 ⟨-1, -60⟩ = ⟨0, -44⟩ := by decide
  refine ⟨?_, ?_, ?_⟩
  · rw [h2]
    norm_num [Dy.val]
  · rw [h2]
    norm_num [Dy.val]
  · rw [h3]
    norm_num [Dy.val]

/-- C2: `Div` is component-wise and unguarded, propagating IEEE-754
semantics: each component of the result is the IEEE quotient of the matching
components, and dividing `(1, 0)` by `(0, 1)` (and `(1, 0, 0)` by
`(0, 1, 1)`) yields `+Inf` on X and `0` on the remaining axes, with no error
signalled (the operation is total). -/
theorem div_unguarded_ieee :
    Vector2Ext.Div ⟨GoFloat.fin ⟨1, 0⟩, GoFloat.fin ⟨0, 0⟩⟩
        ⟨GoFloat.fin ⟨0, 0⟩, GoFloat.fin ⟨1, 0⟩⟩ =
      ⟨GoFloat.inf false, GoFloat.fin ⟨0, 0⟩⟩ ∧
    Vector3Ext.Div ⟨GoFloat.fin ⟨1, 0⟩, GoFloat.fin ⟨0, 0⟩, GoFloat.fin ⟨0, 0⟩⟩
        ⟨GoFloat.fin ⟨0, 0⟩, GoFloat.fin ⟨1, 0⟩, GoFloat.fin ⟨1, 0⟩⟩ =
      ⟨GoFloat.inf false, GoFloat.fin ⟨0, 0⟩, GoFloat.fin ⟨0, 0⟩⟩ ∧
    (∀ v w : Vector2Ext, Vector2Ext.Div v w = ⟨goDiv v.X w.X, goDiv v.Y w.Y⟩) ∧
    (∀ v w : Vector3Ext, Vector3Ext.Div v w = ⟨goDiv v.X w.X, goDiv v.Y w.Y, goDiv v.Z w.Z⟩) :=
  ⟨by decide, by decide, fun v w => rfl, fun v w => rfl⟩

/-- C3: `Normalize()` on the exact zero vector is a no-op for both types:
the guard (zero squared magnitude for `Vector2`, zero magnitude for
`Vector3`) fails and the vector is returned with every component exactly 0,
no division being performed. -/
theorem normalize_zero_vector_noop :
    Vectors.Vector2.Normalize ⟨0, 0⟩ = (⟨0, 0⟩ : Vectors.Vector2) ∧
    Vectors.Vector3.Normalize ⟨0, 0, 0⟩ = (⟨0, 0, 0⟩ : Vectors.Vector3) := by
  constructor
  · unfold Vectors.Vector2.Normalize
    norm_num
  · unfold Vectors.Vector3.Normalize
    norm_num

/-- C7: the conversions are pure functions and round-trip as claimed:
`ToVector3` yields `(X, Y, 0)`, converting back gives the original
`Vector2` exactly; `ToVector2` drops Z, and `u.ToVector2().ToVector3() = u`
holds exactly when `u.Z = 0`. -/
theorem conversions_pure_roundtrip (v : Vectors.Vector2) (u : Vectors.Vector3) :
    v.ToVector3 = ⟨v.X, v.Y, 0⟩ ∧
    (v.ToVector3).ToVector2 = v ∧
    u.ToVector2 = ⟨u.X, u.Y⟩ ∧
    ((u.ToVector2).ToVector3 = u ↔ u.Z = 0) := by
  refine ⟨rfl, rfl, rfl, ?_⟩
  constructor
  · intro h
    have h2 := congrArg Vectors.Vector3.Z h
    simpa [Vectors.Vector2.ToVector3, Vectors.Vector3.ToVector2] using h2.symm
  · intro h
    ext
    · rfl
    · rfl
    · simpa [Vectors.Vector2.ToVector3, Vectors.Vector3.ToVector2] using h.symm

/-- C8 (counterexample): with binary64 rounding, `v.Add(w); v.Sub(w)` does
not always restore `v` exactly: for `v = (1, 0)` and `w = (2^100, 0)` the
sum `1 + 2^100` rounds to `2^100`, so the subtraction leaves `0`, not the
original `1`. -/
theorem add_sub_fp_not_exact :
    ((Vector2FP.Sub (Vector2FP.Add ⟨⟨1, 0⟩, ⟨0, 0⟩⟩ ⟨⟨1, 100⟩, ⟨0, 0⟩⟩)
        ⟨⟨1, 100⟩, ⟨0, 0⟩⟩).X).val = 0 ∧
    (Dy.val ⟨1, 0⟩) = 1 := by
  have h : Vector2FP.Sub (Vector2FP.Add ⟨⟨1, 0⟩, ⟨0, 0⟩⟩ ⟨⟨1, 100⟩, ⟨0, 0⟩⟩)
      ⟨⟨1, 100⟩, ⟨0, 0⟩⟩ = ⟨⟨0, 0⟩, ⟨0, 0⟩⟩ := by decide
  rw [h]
  norm_num [Dy.val]

/-- C8 (amended): in exact arithmetic, `v.Add(w)` followed by `v.Sub(w)`
restores the original vector componentwise, for every `v` and `w`. -/
theorem add_sub_inverse (v w : Vectors.Vector2) : (v.Add w).Sub w = v := by
  ext
  · show v.X + w.X - w.X = v.X
    ring
  · show v.Y + w.Y - w.Y = v.Y
    ring

/-- C9 (counterexample): with binary64 rounding, `Lerp` with `t = 1` does
not always land exactly on the target: lerping from `(1, 0)` toward
`(2^-60, 0)` with `t = 1` computes `1 + (2^-60 - 1) * 1`; the difference
`2^-60 - 1` rounds to `-1`, so the result is `0`, not the target `2^-60`. -/
theorem lerp_t_one_fp_not_exact :
    ((Vector2FP.Lerp ⟨⟨1, 0⟩, ⟨0, 0⟩⟩ ⟨⟨1, -60⟩, ⟨0, 0⟩⟩ ⟨1, 0⟩).X).val = 0 ∧
    Dy.val ⟨1, -60⟩ ≠ 0 := by
  have h : Vector2FP.Lerp ⟨⟨1, 0⟩, ⟨0, 0⟩⟩ ⟨⟨1, -60⟩, ⟨0, 0⟩⟩ ⟨1, 0⟩ = ⟨⟨0, 0⟩, ⟨0, 0⟩⟩ := by
    decide
  rw [h]
  constructor
  · norm_num [Dy.val]
  · norm_num [Dy.val]

/-- C9 (amended): `Lerp` sets each component to `self + (other - self) * t`
with no clamping of `t`; in exact arithmetic `t = 0` leaves the vector
unchanged, `t = 1` yields exactly the target, and lerping `(0,0)` toward
`(10,10)` with `t = 1/2` yields `(5,5)`.  (Under IEEE-754 rounding the
`t = 1` case can miss the target; see the counterexample.) -/
theorem lerp_spec (v w : Vectors.Vector2) (t : ℝ) :
    v.Lerp w t = ⟨v.X + (w.X - v.X) * t, v.Y + (w.Y - v.Y) * t⟩ ∧
    v.Lerp w 0 = v ∧
    v.Lerp w 1 = w ∧
    Vectors.Vector2.Lerp ⟨0, 0⟩ ⟨10, 10⟩ (1 / 2) = ⟨5, 5⟩ := by
  refine ⟨rfl, ?_, ?_, ?_⟩
  · ext
    · show v.X + (w.X - v.X) * 0 = v.X
      ring
    · show v.Y + (w.Y - v.Y) * 0 = v.Y
      ring
  · ext
    · show v.X + (w.X - v.X) * 1 = w.X
      ring
    · show v.Y + (w.Y - v.Y) * 1 = w.Y
      ring
  · ext
    · show (0 : ℝ) + (10 - 0) * (1 / 2) = 5
      norm_num
    · show (0 : ℝ) + (10 - 0) * (1 / 2) = 5
      norm_num

/-- C10: there is a non-zero vector whose squared components underflow to
exactly 0 in binary64: for `X = 2^-565` (about `8.3e-171`) and `Y = 0`,
`X*X + Y*Y` evaluates to 0, so `Normalize()` (both the `Vector2` and the
`Vector3` version) leaves the vector unchanged rather than making it a unit
vector, and `Magnitude()` returns 0 even though `IsZero()` is false. -/
theorem underflow_nonzero_normalize_noop :
    ¬ Vector2FP.IsZero ⟨⟨1, -565⟩, ⟨0, 0⟩⟩ ∧
    (Vector2FP.MagnitudeSquared ⟨⟨1, -565⟩, ⟨0, 0⟩⟩).val = 0 ∧
    Vector2FP.Normalize ⟨⟨1, -565⟩, ⟨0, 0⟩⟩ = ⟨⟨1, -565⟩, ⟨0, 0⟩⟩ ∧
    (Vector2FP.Magnitude ⟨⟨1, -565⟩, ⟨0, 0⟩⟩).val = 0 ∧
    Vector3FP.Normalize ⟨⟨1, -565⟩, ⟨0, 0⟩, ⟨0, 0⟩⟩ = ⟨⟨1, -565⟩, ⟨0, 0⟩, ⟨0, 0⟩⟩ := by
  have hms : Vector2FP.MagnitudeSquared ⟨⟨1, -565⟩, ⟨0, 0⟩⟩ = ⟨0, 0⟩ := by decide
  have hm : Vector2FP.Magnitude ⟨⟨1, -565⟩, ⟨0, 0⟩⟩ = ⟨0, 0⟩ := by decide
  refine ⟨by decide, ?_, by decide, ?_, by decide⟩
  · rw [hms]
    norm_num [Dy.val]
  · rw [hm]
    norm_num [Dy.val]

/-- C4 (counterexample): with binary64 rounding, the magnitude after
clamping is not always exactly `maxValue`: clamping `(1, 1)` to magnitude 1
takes the scaling branch (so this is not the no-op case) and produces a
vector whose computed magnitude is `1 - 2^-53`, not exactly 1. -/
theorem clampMagnitude_fp_not_exact :
    (Vector2FP.Magnitude (Vector2FP.ClampMagnitude ⟨⟨1, 0⟩, ⟨1, 0⟩⟩ ⟨1, 0⟩)).val ≠ Dy.val ⟨1, 0⟩ ∧
    Vector2FP.ClampMagnitude ⟨⟨1, 0⟩, ⟨1, 0⟩⟩ ⟨1, 0⟩ ≠ ⟨⟨1, 0⟩, ⟨1, 0⟩⟩ := by
  have h : Vector2FP.Magnitude (Vector2FP.ClampMagnitude ⟨⟨1, 0⟩, ⟨1, 0⟩⟩ ⟨1, 0⟩) =
      ⟨9007199254740991, -53⟩ := by decide
  constructor
  · rw [h]
    norm_num [Dy.val]
  · decide

/-- C4 (amended): for every vector and every `maxValue ≥ 0`, in exact
arithmetic: after `ClampMagnitude(maxValue)` the magnitude is at most
`maxValue`; if the original magnitude was at most `maxValue` (including the
zero vector) the vector is unchanged; otherwise every component is scaled by
`maxValue / magnitude` and the resulting magnitude equals `maxValue` (under
IEEE-754 rounding this last equality holds only approximately; see the
counterexample). -/
theorem clampMagnitude_spec (v : Vectors.Vector2) (u : Vectors.Vector3) (m : ℝ)
    (hm : 0 ≤ m) :
    ((v.ClampMagnitude m).Magnitude ≤ m ∧
      (v.Magnitude ≤ m → v.ClampMagnitude m = v) ∧
      (m < v.Magnitude →
        v.ClampMagnitude m = ⟨v.X * (m / v.Magnitude), v.Y * (m / v.Magnitude)⟩ ∧
        (v.ClampMagnitude m).Magnitude = m)) ∧
    ((u.ClampMagnitude m).Magnitude ≤ m ∧
      (u.Magnitude ≤ m → u.ClampMagnitude m = u) ∧
      (m < u.Magnitude →
        u.ClampMagnitude m = ⟨u.X * (m / u.Magnitude), u.Y * (m / u.Magnitude),
          u.Z * (m / u.Magnitude)⟩ ∧
        (u.ClampMagnitude m).Magnitude = m)) := by
  constructor
  · have hs : 0 ≤ v.MagnitudeSquared := Vectors.sumsq_nonneg v.X v.Y
    by_cases hb : v.MagnitudeSquared = 0 ∨ v.MagnitudeSquared ≤ m * m
    · have he : v.ClampMagnitude m = v := by
        unfold Vectors.Vector2.ClampMagnitude
        exact if_pos hb
      have hle : v.Magnitude ≤ m := by
        rcases hb with h0 | h1
        · have h2 : v.Magnitude = 0 := by
            show Real.sqrt v.MagnitudeSquared = 0
            rw [h0, Real.sqrt_zero]
          rw [h2]
          exact hm
        · show Real.sqrt v.MagnitudeSquared ≤ m
          exact Vectors.sqrt_le_of_sq hm h1
      refine ⟨?_, fun _ => he, fun hc => absurd hle (not_le.mpr hc)⟩
      rw [he]
      exact hle
    · push_neg at hb
      obtain ⟨h0, h1⟩ := hb
      have h0s : 0 < v.MagnitudeSquared := lt_of_le_of_ne hs (Ne.symm h0)
      have hrpos : 0 < v.Magnitude := by
        show 0 < Real.sqrt v.MagnitudeSquared
        exact Real.sqrt_pos.mpr h0s
      have hml : m < v.Magnitude := by
        by_contra hcc
        push_neg at hcc
        have h2 : Real.sqrt v.MagnitudeSquared ≤ m := hcc
        exact absurd (Vectors.sq_le_of_sqrt hs h2) (not_le.mpr h1)
      have hcond : ¬ (v.MagnitudeSquared = 0 ∨ v.MagnitudeSquared ≤ m * m) := by
        push_neg
        exact ⟨h0, h1⟩
      have he : v.ClampMagnitude m =
          ⟨v.X * (m / v.Magnitude), v.Y * (m / v.Magnitude)⟩ := by
        unfold Vectors.Vector2.ClampMagnitude
        rw [if_neg hcond]
        rfl
      have hmagval : (⟨v.X * (m / v.Magnitude), v.Y * (m / v.Magnitude)⟩ :
          Vectors.Vector2).Magnitude = m := by
        show Real.sqrt ((v.X * (m / v.Magnitude)) * (v.X * (m / v.Magnitude)) +
          (v.Y * (m / v.Magnitude)) * (v.Y * (m / v.Magnitude))) = m
        rw [Vectors.sqrt_scaled v.X v.Y (m / v.Magnitude) (div_nonneg hm hrpos.le)]
        show m / v.Magnitude * v.Magnitude = m
        exact div_mul_cancel₀ m (ne_of_gt hrpos)
      refine ⟨?_, fun hc => absurd hc (not_le.mpr hml), fun _ => ⟨he, ?_⟩⟩
      · rw [he, hmagval]
      · rw [he]
        exact hmagval
  · have hmag0 : 0 ≤ u.Magnitude := Real.sqrt_nonneg _
    by_cases hb : u.Magnitude = 0 ∨ u.Magnitude ≤ m
    · have he : u.ClampMagnitude m = u := by
        unfold Vectors.Vector3.ClampMagnitude
        exact if_pos hb
      have hle : u.Magnitude ≤ m := by
        rcases hb with h0 | h1
        · rw [h0]
          exact hm
        · exact h1
      refine ⟨?_, fun _ => he, fun hc => absurd hle (not_le.mpr hc)⟩
      rw [he]
      exact hle
    · push_neg at hb
      obtain ⟨h0, h1⟩ := hb
      have hrpos : 0 < u.Magnitude := lt_of_le_of_ne hmag0 (Ne.symm h0)
      have hcond : ¬ (u.Magnitude = 0 ∨ u.Magnitude ≤ m) := by
        push_neg
        exact ⟨h0, h1⟩
      have he : u.ClampMagnitude m = ⟨u.X * (m / u.Magnitude), u.Y * (m / u.Magnitude),
          u.Z * (m / u.Magnitude)⟩ := by
        unfold Vectors.Vector3.ClampMagnitude
        rw [if_neg hcond]
      have hmagval : (⟨u.X * (m / u.Magnitude), u.Y * (m / u.Magnitude),
          u.Z * (m / u.Magnitude)⟩ : Vectors.Vector3).Magnitude = m := by
        show Real.sqrt ((u.X * (m / u.Magnitude)) * (u.X * (m / u.Magnitude)) +
          (u.Y * (m / u.Magnitude)) * (u.Y * (m / u.Magnitude)) +
          (u.Z * (m / u.Magnitude)) * (u.Z * (m / u.Magnitude))) = m
        rw [Vectors.sqrt3_scaled u.X u.Y u.Z (m / u.Magnitude) (div_nonneg hm hmag0)]
        show m / u.Magnitude * u.Magnitude = m
        exact div_mul_cancel₀ m (ne_of_gt hrpos)
      refine ⟨?_, fun hc => absurd hc (not_le.mpr h1), fun _ => ⟨he, ?_⟩⟩
      · rw [he, hmagval]
      · rw [he]
        exact hmagval

/-- C4 (witness): clamping `(3, 4)` (magnitude 5) and `(2, 3, 6)`
(magnitude 7) to `maxValue = 1 ≥ 0` yields magnitudes at most 1. -/
theorem clampMagnitude_spec_witness :
    (0 : ℝ) ≤ 1 ∧
    ((Vectors.Vector2.mk 3 4).ClampMagnitude 1).Magnitude ≤ 1 ∧
    ((Vectors.Vector3.mk 2 3 6).ClampMagnitude 1).Magnitude ≤ 1 :=
  ⟨by norm_num, (clampMagnitude_spec ⟨3, 4⟩ ⟨2, 3, 6⟩ 1 (by norm_num)).1.1,
    (clampMagnitude_spec ⟨3, 4⟩ ⟨2, 3, 6⟩ 1 (by norm_num)).2.1⟩

/-- C5 (amended): for every non-zero vector (of either type), in exact
arithmetic, after `Normalize()` the magnitude is exactly 1 and
`AngleRadians()` is unchanged: direction is preserved.  (Under IEEE-754
rounding this fails for tiny non-zero vectors whose squared magnitude
underflows to 0 — `Normalize()` is then a no-op and the magnitude stays 0;
see the counterexample.) -/
theorem normalize_unit_preserves_angle (v : Vectors.Vector2) (u : Vectors.Vector3)
    (hv : ¬ v.IsZero) (hu : ¬ u.IsZero) :
    (v.Normalize).Magnitude = 1 ∧ (v.Normalize).AngleRadians = v.AngleRadians ∧
    (u.Normalize).Magnitude = 1 ∧ (u.Normalize).AngleRadians = u.AngleRadians := by
  have hv2 : v.X ≠ 0 ∨ v.Y ≠ 0 := by
    unfold Vectors.Vector2.IsZero at hv
    exact not_and_or.mp hv
  have hu3 : u.X ≠ 0 ∨ u.Y ≠ 0 ∨ u.Z ≠ 0 := by
    unfold Vectors.Vector3.IsZero at hu
    rcases not_and_or.mp hu with h | h
    · exact Or.inl h
    · rcases not_and_or.mp h with h2 | h2
      · exact Or.inr (Or.inl h2)
      · exact Or.inr (Or.inr h2)
  have hs2 : 0 < v.X * v.X + v.Y * v.Y := Vectors.sumsq_pos hv2
  have hs3 : 0 < u.X * u.X + u.Y * u.Y + u.Z * u.Z := Vectors.sumsq3_pos hu3
  have hr2 : 0 < Real.sqrt (v.X * v.X + v.Y * v.Y) := Real.sqrt_pos.mpr hs2
  have hr3 : 0 < Real.sqrt (u.X * u.X + u.Y * u.Y + u.Z * u.Z) := Real.sqrt_pos.mpr hs3
  have he2 : v.Normalize = ⟨v.X / Real.sqrt (v.X * v.X + v.Y * v.Y),
      v.Y / Real.sqrt (v.X * v.X + v.Y * v.Y)⟩ := by
    unfold Vectors.Vector2.Normalize
    rw [if_pos (ne_of_gt hs2)]
  have he3 : u.Normalize = ⟨u.X / Real.sqrt (u.X * u.X + u.Y * u.Y + u.Z * u.Z),
      u.Y / Real.sqrt (u.X * u.X + u.Y * u.Y + u.Z * u.Z),
      u.Z / Real.sqrt (u.X * u.X + u.Y * u.Y + u.Z * u.Z)⟩ := by
    unfold Vectors.Vector3.Normalize
    rw [if_pos (ne_of_gt hr3)]
  refine ⟨?_, ?_, ?_, ?_⟩
  · rw [he2]
    show Real.sqrt ((v.X / Real.sqrt (v.X * v.X + v.Y * v.Y)) *
      (v.X / Real.sqrt (v.X * v.X + v.Y * v.Y)) +
      (v.Y / Real.sqrt (v.X * v.X + v.Y * v.Y)) *
      (v.Y / Real.sqrt (v.X * v.X + v.Y * v.Y))) = 1
    have hstep : (v.X / Real.sqrt (v.X * v.X + v.Y * v.Y)) *
        (v.X / Real.sqrt (v.X * v.X + v.Y * v.Y)) +
        (v.Y / Real.sqrt (v.X * v.X + v.Y * v.Y)) *
        (v.Y / Real.sqrt (v.X * v.X + v.Y * v.Y)) =
        (v.X * v.X + v.Y * v.Y) /
          (Real.sqrt (v.X * v.X + v.Y * v.Y) * Real.sqrt (v.X * v.X + v.Y * v.Y)) := by
      ring
    rw [hstep, Real.mul_self_sqrt (le_of_lt hs2), div_self (ne_of_gt hs2), Real.sqrt_one]
  · rw [he2]
    show Vectors.mathAtan2 (v.Y / Real.sqrt (v.X * v.X + v.Y * v.Y))
      (v.X / Real.sqrt (v.X * v.X + v.Y * v.Y)) = Vectors.mathAtan2 v.Y v.X
    exact Vectors.mathAtan2_div v.Y v.X _ hr2
  · rw [he3]
    show Real.sqrt ((u.X / Real.sqrt (u.X * u.X + u.Y * u.Y + u.Z * u.Z)) *
      (u.X / Real.sqrt (u.X * u.X + u.Y * u.Y + u.Z * u.Z)) +
      (u.Y / Real.sqrt (u.X * u.X + u.Y * u.Y + u.Z * u.Z)) *
      (u.Y / Real.sqrt (u.X * u.X + u.Y * u.Y + u.Z * u.Z)) +
      (u.Z / Real.sqrt (u.X * u.X + u.Y * u.Y + u.Z * u.Z)) *
      (u.Z / Real.sqrt (u.X * u.X + u.Y * u.Y + u.Z * u.Z))) = 1
    have hstep : (u.X / Real.sqrt (u.X * u.X + u.Y * u.Y + u.Z * u.Z)) *
        (u.X / Real.sqrt (u.X * u.X + u.Y * u.Y + u.Z * u.Z)) +
        (u.Y / Real.sqrt (u.X * u.X + u.Y * u.Y + u.Z * u.Z)) *
        (u.Y / Real.sqrt (u.X * u.X + u.Y * u.Y + u.Z * u.Z)) +
        (u.Z / Real.sqrt (u.X * u.X + u.Y * u.Y + u.Z * u.Z)) *
        (u.Z / Real.sqrt (u.X * u.X + u.Y * u.Y + u.Z * u.Z)) =
        (u.X * u.X + u.Y * u.Y + u.Z * u.Z) /
          (Real.sqrt (u.X * u.X + u.Y * u.Y + u.Z * u.Z) *
            Real.sqrt (u.X * u.X + u.Y * u.Y + u.Z * u.Z)) := by
      ring
    rw [hstep, Real.mul_self_sqrt (le_of_lt hs3), div_self (ne_of_gt hs3), Real.sqrt_one]
  · rw [he3]
    show Vectors.mathAtan2 (u.Y / Real.sqrt (u.X * u.X + u.Y * u.Y + u.Z * u.Z))
      (u.X / Real.sqrt (u.X * u.X + u.Y * u.Y + u.Z * u.Z)) = Vectors.mathAtan2 u.Y u.X
    exact Vectors.mathAtan2_div u.Y u.X _ hr3

/-- C5 (witness): normalising the non-zero vectors `(3, 4)` and `(1, 2, 2)`
yields magnitude exactly 1. -/
theorem normalize_unit_witness :
    ¬ Vectors.Vector2.IsZero ⟨3, 4⟩ ∧ ¬ Vectors.Vector3.IsZero ⟨1, 2, 2⟩ ∧
    ((Vectors.Vector2.mk 3 4).Normalize).Magnitude = 1 ∧
    ((Vectors.Vector3.mk 1 2 2).Normalize).Magnitude = 1 := by
  have h2 : ¬ Vectors.Vector2.IsZero ⟨3, 4⟩ := by
    unfold Vectors.Vector2.IsZero
    norm_num
  have h3 : ¬ Vectors.Vector3.IsZero ⟨1, 2, 2⟩ := by
    unfold Vectors.Vector3.IsZero
    norm_num
  exact ⟨h2, h3, (normalize_unit_preserves_angle ⟨3, 4⟩ ⟨1, 2, 2⟩ h2 h3).1,
    (normalize_unit_preserves_angle ⟨3, 4⟩ ⟨1, 2, 2⟩ h2 h3).2.2.1⟩

/-- C5 (counterexample): with binary64 rounding, `Normalize()` on a
non-zero vector does not always produce magnitude approximately 1: for the
non-zero vector `(2^-565, 0)` the computed squared magnitude underflows to
0, the guard fails, `Normalize()` leaves the vector unchanged, and the
magnitude after the call is 0 — not within any floating tolerance of 1. -/
theorem normalize_underflow_not_unit :
    ¬ Vector2FP.IsZero ⟨⟨1, -565⟩, ⟨0, 0⟩⟩ ∧
    (Vector2FP.Magnitude (Vector2FP.Normalize ⟨⟨1, -565⟩, ⟨0, 0⟩⟩)).val = 0 := by
  have h : Vector2FP.Magnitude (Vector2FP.Normalize ⟨⟨1, -565⟩, ⟨0, 0⟩⟩) = ⟨0, 0⟩ := by
    decide
  refine ⟨by decide, ?_⟩
  rw [h]
  norm_num [Dy.val]
